import Mathlib

/-!
Verification of the delivery checker (`src/deliverychecker.ts`).

The TypeScript source is shallowly embedded below:

* numbers are modelled as `Int` (the algorithm only ever adds small
  constants and compares, so integral JavaScript numbers behave exactly
  like `Int` here);
* the tuple-typed results `[true, [Step, Step]] | [false, Error]` become
  `Except Error (Step × Step)`;
* `Array.prototype.indexOf` becomes `jsIndexOf`, returning `-1` exactly
  when the element is absent and the index of the first occurrence
  otherwise;
* `Array.prototype.sort` with the comparator `(a, b) => a.address - b.address`
  is a stable ascending sort by address, modelled by a stable insertion
  sort (stable sorts agree pointwise, so the model is canonical);
* the final reorder step indexes `truckPath[i]` out of range and casts
  the possibly-undefined result of `find` with `as Step`, so the entries
  of a successful output are modelled as `Option Step`, `none` standing
  for an `undefined` entry.
-/

namespace Delivery

/-- Actions of a step: the union type `'pickup' | 'dropoff' | null`. -/
inductive Action where
  | pickup
  | dropoff
  | none
deriving DecidableEq

/-- Embeds `Step = { address: number, action: ... }`. -/
structure Step where
  address : Int
  action : Action
deriving DecidableEq

/-- Embeds the closed union of `Error.error_code` literals. -/
inductive ErrorCode where
  | delivery_address_not_in_path
  | delivery_dropoff_before_pickup
  | dropoff_address_not_in_path
  | unknown_error
deriving DecidableEq

/-- Embeds `Error = { error_code, error_message }`. -/
structure Error where
  error_code : ErrorCode
  error_message : String
deriving DecidableEq

/-- Embeds `Parcel = { pickupAddress: number, dropoffAddress: number }`. -/
structure Parcel where
  pickupAddress : Int
  dropoffAddress : Int
deriving DecidableEq

/-- Embeds the discriminated union `Output`.  The success payload is a
list of `Option Step` because the reorder step of `generateTruckSteps`
can produce `undefined` entries hidden by an `as Step` cast. -/
inductive Output where
  | success (steps : List (Option Step))
  | error (e : Error)
deriving DecidableEq

deriving instance DecidableEq for Except

/-- Embeds JavaScript `l.indexOf(a)`: the index of the first occurrence
of `a` in `l`, or `-1` when `a` does not occur. -/
def jsIndexOf (l : List Int) (a : Int) : Int :=
  match l with
  | [] => -1
  | x :: xs =>
    if x = a then 0
    else
      let r := jsIndexOf xs a
      if r = -1 then -1 else r + 1

/-- Embeds `parcelCanBeDelivered` from `src/deliverychecker.ts`. -/
def parcelCanBeDelivered (parcel : Parcel) (truckPath : List Int) :
    Except Error (Step × Step) :=
  let pickupIndex := jsIndexOf truckPath parcel.pickupAddress
  let dropoffIndex := jsIndexOf truckPath parcel.dropoffAddress
  if pickupIndex = -1 then
    Except.error ⟨ErrorCode.delivery_address_not_in_path,
      "Delivery address " ++ toString parcel.pickupAddress ++ " not in path"⟩
  else if dropoffIndex = -1 then
    Except.error ⟨ErrorCode.dropoff_address_not_in_path,
      "Dropoff address " ++ toString parcel.dropoffAddress ++ " not in path"⟩
  else if dropoffIndex < pickupIndex then
    Except.error ⟨ErrorCode.delivery_dropoff_before_pickup,
      "Dropoff address " ++ toString parcel.dropoffAddress ++
        " before pickup address " ++ toString parcel.pickupAddress⟩
  else
    Except.ok (⟨parcel.pickupAddress, Action.pickup⟩,
      ⟨parcel.dropoffAddress, Action.dropoff⟩)

/-- Embeds `parcelsAreAllDeliverable`: every tuple has `true` first. -/
def parcelsAreAllDeliverable (maybeSteps : List (Except Error (Step × Step))) : Bool :=
  maybeSteps.all (fun t => t.isOk)

theorem jsIndexOf_nonneg (l : List Int) (a : Int) (h : jsIndexOf l a ≠ -1) :
    0 ≤ jsIndexOf l a := by
  induction l with
  | nil => simp [jsIndexOf] at h
  | cons x xs ih =>
    simp only [jsIndexOf] at h ⊢
    by_cases hx : x = a
    · simp [hx]
    · simp only [if_neg hx] at h ⊢
      by_cases hr : jsIndexOf xs a = -1
      · simp [hr] at h
      · have := ih hr
        simp only [if_neg hr]
        omega

theorem jsIndexOf_eq_neg_one_iff (l : List Int) (a : Int) :
    jsIndexOf l a = -1 ↔ a ∉ l := by
  induction l with
  | nil => simp [jsIndexOf]
  | cons x xs ih =>
    by_cases hx : x = a
    · subst hx
      simp [jsIndexOf]
    · by_cases hr : jsIndexOf xs a = -1
      · have hmem : a ∉ xs := ih.mp hr
        have hne : a ≠ x := fun h => hx h.symm
        simp [jsIndexOf, hx, hr, hmem, hne]
      · have hmem : a ∈ xs := by
          by_contra hc
          exact hr (ih.mpr hc)
        have h0 := jsIndexOf_nonneg xs a hr
        simp only [jsIndexOf, if_neg hx, if_neg hr]
        constructor
        · intro h
          omega
        · intro h
          exact absurd (List.mem_cons_of_mem x hmem) h

theorem jsIndexOf_ne_neg_one_iff (l : List Int) (a : Int) :
    jsIndexOf l a ≠ -1 ↔ a ∈ l := by
  rw [Ne, jsIndexOf_eq_neg_one_iff]
  exact not_not

/-- The index computed by `jsIndexOf` really is the index of the first
occurrence: the list holds `a` there, and nowhere before it. -/
theorem jsIndexOf_first (l : List Int) (a : Int) (h : a ∈ l) :
    l[(jsIndexOf l a).toNat]? = some a ∧
      ∀ j : Nat, (j : Int) < jsIndexOf l a → l[j]? ≠ some a := by
  induction l with
  | nil => simp at h
  | cons x xs ih =>
    by_cases hx : x = a
    · subst hx
      refine ⟨by simp [jsIndexOf], ?_⟩
      intro j hj
      simp [jsIndexOf] at hj
      omega
    · have hmem : a ∈ xs := by
        rcases List.mem_cons.mp h with h1 | h2
        · exact absurd h1.symm hx
        · exact h2
      have hr : jsIndexOf xs a ≠ -1 := (jsIndexOf_ne_neg_one_iff xs a).mpr hmem
      have h0 := jsIndexOf_nonneg xs a hr
      obtain ⟨ihget, ihlt⟩ := ih hmem
      have hcons : jsIndexOf (x :: xs) a = jsIndexOf xs a + 1 := by
        simp [jsIndexOf, hx, hr]
      refine ⟨?_, ?_⟩
      · rw [hcons]
        have htn : (jsIndexOf xs a + 1).toNat = (jsIndexOf xs a).toNat + 1 := by omega
        rw [htn]
        simpa using ihget
      · intro j hj
        rw [hcons] at hj
        cases j with
        | zero =>
          simp only [List.getElem?_cons_zero]
          intro hc
          exact hx (Option.some.inj hc)
        | succ k =>
          simp only [List.getElem?_cons_succ]
          apply ihlt
          omega

/-- Ascending order on steps used by the sort comparator
`(a, b) => a.address - b.address`. -/
def stepLE (a b : Step) : Prop := a.address ≤ b.address

instance : DecidableRel stepLE := fun a b =>
  (inferInstance : Decidable (a.address ≤ b.address))

instance : IsTotal Step stepLE := ⟨fun a b => Int.le_total a.address b.address⟩

instance : IsTrans Step stepLE := ⟨fun _ _ _ hab hbc => le_trans hab hbc⟩

/-- Embeds `flatSteps.sort((a, b) => a.address - b.address)`.  The
JavaScript sort is stable (ES2019) and the comparator orders ascending
by address; any stable ascending sort computes the same list, so it is
modelled by a stable insertion sort. -/
def sortSteps (l : List Step) : List Step := List.insertionSort stepLE l

/-- What one iteration of the `steps.reduce(...)` gap-filling callback
appends for the entry `p = (i, step)`: the step itself, followed by a
synthetic pass-through step when the next sorted address is exactly two
further. -/
def contribution (steps : List Step) (p : Nat × Step) : List Step :=
  if p.1 = steps.length - 1 then [p.2]
  else
    match steps[p.1 + 1]? with
    | some nextStep =>
      if nextStep.address = p.2.address + 2 then
        [p.2, ⟨p.2.address + 1, Action.none⟩]
      else [p.2]
    | Option.none => [p.2]

/-- The `reduce` callback itself: extend the accumulator. -/
def gapFillAcc (steps : List Step) (acc : List Step) (p : Nat × Step) : List Step :=
  acc ++ contribution steps p

/-- Embeds the `const fullSteps = steps.reduce(..., [])` pass: a fold
over the sorted list paired with its indices. -/
def fullStepsOf (steps : List Step) : List Step :=
  steps.enum.foldl (gapFillAcc steps) []

/-- Gap filling as the specification words it: walk the adjacent pairs
of the sorted sequence and insert one `Action.none` step exactly when
the two addresses differ by exactly 2; larger gaps are left alone. -/
def gapFill : List Step → List Step
  | [] => []
  | [s] => [s]
  | s :: t :: rest =>
    if t.address = s.address + 2 then
      s :: ⟨s.address + 1, Action.none⟩ :: gapFill (t :: rest)
    else s :: gapFill (t :: rest)

/-- Embeds the final reorder
`fullSteps.map((_, i) => fullSteps.find(step => step.address === truckPath[i]))`:
one entry per gap-filled step, looked up by the path address at the same
index; a missing path entry or a failed lookup yields an absent entry
(`undefined` behind the `as Step` cast). -/
def rightOrderStep (fullSteps : List Step) (truckPath : List Int) :
    List (Option Step) :=
  (List.range fullSteps.length).map (fun i =>
    match truckPath[i]? with
    | some trackId => fullSteps.find? (fun step => decide (step.address = trackId))
    | Option.none => Option.none)

/-- Embeds `generateTruckSteps` from `src/deliverychecker.ts`. -/
def generateTruckSteps (deliveries : List Parcel) (truckPath : List Int) : Output :=
  let maybeSteps := deliveries.map (fun parcel => parcelCanBeDelivered parcel truckPath)
  if !parcelsAreAllDeliverable maybeSteps then
    match maybeSteps.find? (fun t => !t.isOk) with
    | some (Except.error e) => Output.error e
    | some (Except.ok _) => Output.error ⟨ErrorCode.unknown_error, "Unknown error"⟩
    | Option.none => Output.error ⟨ErrorCode.unknown_error, "Unknown error"⟩
  else
    let onlySteps := maybeSteps.filterMap (fun t => t.toOption)
    let flatSteps := onlySteps.flatMap (fun pair => [pair.1, pair.2])
    let steps := sortSteps flatSteps
    let fullSteps := fullStepsOf steps
    Output.success (rightOrderStep fullSteps truckPath)

/-- The flattened list of step pairs of all (successfully checked)
parcels, as built in the success branch of `generateTruckSteps`. -/
def flatStepsOf (deliveries : List Parcel) (truckPath : List Int) : List Step :=
  ((deliveries.map (fun parcel => parcelCanBeDelivered parcel truckPath)).filterMap
    (fun t => t.toOption)).flatMap (fun pair => [pair.1, pair.2])

/-- The pickup and dropoff steps read off directly from the parcels,
with no reference to the truck path. -/
def parcelSteps (deliveries : List Parcel) : List Step :=
  deliveries.flatMap (fun p =>
    [⟨p.pickupAddress, Action.pickup⟩, ⟨p.dropoffAddress, Action.dropoff⟩])

theorem foldl_gapFillAcc (steps : List Step) :
    ∀ (l : List (Nat × Step)) (acc : List Step),
      l.foldl (gapFillAcc steps) acc = acc ++ l.flatMap (contribution steps) := by
  intro l
  induction l with
  | nil => intro acc; simp
  | cons p l ih =>
    intro acc
    simp only [List.foldl_cons, List.flatMap_cons, ih, gapFillAcc, List.append_assoc]

theorem enumFrom_flatMap_contribution :
    ∀ (cur pre : List Step),
      (List.enumFrom pre.length cur).flatMap (contribution (pre ++ cur)) =
        gapFill cur := by
  intro cur
  induction cur with
  | nil => intro pre; simp [List.enumFrom, gapFill]
  | cons y ys ih =>
    intro pre
    have hre : pre ++ y :: ys = (pre ++ [y]) ++ ys := by simp
    have htail : (List.enumFrom (pre.length + 1) ys).flatMap
        (contribution (pre ++ y :: ys)) = gapFill ys := by
      have hlen : (pre ++ [y]).length = pre.length + 1 := by simp
      rw [hre, ← hlen, ih (pre ++ [y])]
    have hstep : List.enumFrom pre.length (y :: ys) =
        (pre.length, y) :: List.enumFrom (pre.length + 1) ys := rfl
    rw [hstep, List.flatMap_cons, htail]
    cases ys with
    | nil =>
      have hc : contribution (pre ++ [y]) (pre.length, y) = [y] := by
        have hl : (pre ++ [y]).length - 1 = pre.length := by simp
        simp [contribution, hl]
      simpa [gapFill] using hc
    | cons t rest =>
      have hlen2 : (pre ++ y :: t :: rest).length = pre.length + rest.length + 2 := by
        simp
        omega
      have hcond : ¬ pre.length = (pre ++ y :: t :: rest).length - 1 := by
        rw [hlen2]
        omega
      have hget : (pre ++ y :: t :: rest)[pre.length + 1]? = some t := by
        rw [List.getElem?_append_right (by omega)]
        simp
      by_cases haddr : t.address = y.address + 2
      · simp [contribution, hcond, hget, haddr, gapFill]
      · simp [contribution, hcond, hget, haddr, gapFill]

/-- The literal translation of the `reduce` pass agrees with the
adjacent-pair description `gapFill`. -/
theorem fullStepsOf_eq_gapFill (steps : List Step) :
    fullStepsOf steps = gapFill steps := by
  have h := enumFrom_flatMap_contribution steps []
  simp only [List.nil_append, List.length_nil] at h
  rw [fullStepsOf, List.enum, foldl_gapFillAcc, List.nil_append]
  exact h

/-- Factored out of the three claims about failing branches of
`parcelCanBeDelivered`: the dropoff-before-pickup rejection. -/
theorem parcelCanBeDelivered_dbp_aux (p : Parcel) (tp : List Int)
    (h1 : p.pickupAddress ∈ tp) (h2 : p.dropoffAddress ∈ tp)
    (h3 : jsIndexOf tp p.dropoffAddress < jsIndexOf tp p.pickupAddress) :
    parcelCanBeDelivered p tp =
      Except.error ⟨ErrorCode.delivery_dropoff_before_pickup,
        "Dropoff address " ++ toString p.dropoffAddress ++
          " before pickup address " ++ toString p.pickupAddress⟩ := by
  have hp := (jsIndexOf_ne_neg_one_iff tp p.pickupAddress).mpr h1
  have hd := (jsIndexOf_ne_neg_one_iff tp p.dropoffAddress).mpr h2
  simp only [parcelCanBeDelivered]
  rw [if_neg hp, if_neg hd, if_pos h3]

/-- C1: when both the pickup and the dropoff address occur in the truck
path and the first occurrence of the dropoff address is no earlier than
the first occurrence of the pickup address, `parcelCanBeDelivered`
succeeds with exactly the pickup step followed by the dropoff step. -/
theorem parcelCanBeDelivered_ok (p : Parcel) (tp : List Int)
    (h1 : p.pickupAddress ∈ tp) (h2 : p.dropoffAddress ∈ tp)
    (h3 : jsIndexOf tp p.pickupAddress ≤ jsIndexOf tp p.dropoffAddress) :
    parcelCanBeDelivered p tp =
      Except.ok (⟨p.pickupAddress, Action.pickup⟩,
        ⟨p.dropoffAddress, Action.dropoff⟩) := by
  have hp := (jsIndexOf_ne_neg_one_iff tp p.pickupAddress).mpr h1
  have hd := (jsIndexOf_ne_neg_one_iff tp p.dropoffAddress).mpr h2
  simp only [parcelCanBeDelivered]
  rw [if_neg hp, if_neg hd, if_neg (by omega)]

/-- Closed instance of `parcelCanBeDelivered_ok` on a concrete parcel
and path. -/
theorem parcelCanBeDelivered_ok_witness :
    parcelCanBeDelivered ⟨1, 2⟩ [1, 2] =
      Except.ok (⟨1, Action.pickup⟩, ⟨2, Action.dropoff⟩) :=
  parcelCanBeDelivered_ok ⟨1, 2⟩ [1, 2] (by decide) (by decide) (by decide)

/-- C4: when the pickup address does not occur in the truck path,
`parcelCanBeDelivered` fails with `delivery_address_not_in_path` and the
message naming the pickup address. -/
theorem parcelCanBeDelivered_pickup_absent (p : Parcel) (tp : List Int)
    (h : p.pickupAddress ∉ tp) :
    parcelCanBeDelivered p tp =
      Except.error ⟨ErrorCode.delivery_address_not_in_path,
        "Delivery address " ++ toString p.pickupAddress ++ " not in path"⟩ := by
  have hp := (jsIndexOf_eq_neg_one_iff tp p.pickupAddress).mpr h
  simp only [parcelCanBeDelivered]
  rw [if_pos hp]

/-- Closed instance of `parcelCanBeDelivered_pickup_absent` on a
concrete parcel and path. -/
theorem parcelCanBeDelivered_pickup_absent_witness :
    parcelCanBeDelivered ⟨1, 2⟩ [2] =
      Except.error ⟨ErrorCode.delivery_address_not_in_path,
        "Delivery address " ++ toString (1 : Int) ++ " not in path"⟩ :=
  parcelCanBeDelivered_pickup_absent ⟨1, 2⟩ [2] (by decide)

/-- C5: when both addresses occur in the truck path but the first
occurrence of the dropoff address strictly precedes the first occurrence
of the pickup address, `parcelCanBeDelivered` fails with
`delivery_dropoff_before_pickup` and the message naming both
addresses. -/
theorem parcelCanBeDelivered_dropoff_before_pickup (p : Parcel) (tp : List Int)
    (h1 : p.pickupAddress ∈ tp) (h2 : p.dropoffAddress ∈ tp)
    (h3 : jsIndexOf tp p.dropoffAddress < jsIndexOf tp p.pickupAddress) :
    parcelCanBeDelivered p tp =
      Except.error ⟨ErrorCode.delivery_dropoff_before_pickup,
        "Dropoff address " ++ toString p.dropoffAddress ++
          " before pickup address " ++ toString p.pickupAddress⟩ :=
  parcelCanBeDelivered_dbp_aux p tp h1 h2 h3

/-- Closed instance of `parcelCanBeDelivered_dropoff_before_pickup` on a
concrete parcel and path. -/
theorem parcelCanBeDelivered_dropoff_before_pickup_witness :
    parcelCanBeDelivered ⟨1, 2⟩ [2, 1] =
      Except.error ⟨ErrorCode.delivery_dropoff_before_pickup,
        "Dropoff address " ++ toString (2 : Int) ++
          " before pickup address " ++ toString (1 : Int)⟩ :=
  parcelCanBeDelivered_dropoff_before_pickup ⟨1, 2⟩ [2, 1]
    (by decide) (by decide) (by decide)

/-- C10: address lookup uses only first occurrences.  Even when the
dropoff address occurs again at a position strictly after the first
occurrence of the pickup address, the parcel is rejected with
`delivery_dropoff_before_pickup` as soon as the first occurrence of the
dropoff address precedes the first occurrence of the pickup address. -/
theorem parcelCanBeDelivered_first_occurrence_only (p : Parcel) (tp : List Int)
    (h1 : p.pickupAddress ∈ tp)
    (h3 : jsIndexOf tp p.dropoffAddress < jsIndexOf tp p.pickupAddress)
    (h4 : ∃ j : Nat, (jsIndexOf tp p.pickupAddress).toNat < j ∧
      tp[j]? = some p.dropoffAddress) :
    parcelCanBeDelivered p tp =
      Except.error ⟨ErrorCode.delivery_dropoff_before_pickup,
        "Dropoff address " ++ toString p.dropoffAddress ++
          " before pickup address " ++ toString p.pickupAddress⟩ := by
  obtain ⟨j, _, hget⟩ := h4
  have h2 : p.dropoffAddress ∈ tp := by
    have := List.getElem?_eq_some.mp hget
    obtain ⟨hj, heq⟩ := this
    exact heq ▸ List.getElem_mem hj
  exact parcelCanBeDelivered_dbp_aux p tp h1 h2 h3

/-- Closed instance of `parcelCanBeDelivered_first_occurrence_only` on a
path with a duplicated dropoff address. -/
theorem parcelCanBeDelivered_first_occurrence_only_witness :
    parcelCanBeDelivered ⟨1, 2⟩ [2, 1, 2] =
      Except.error ⟨ErrorCode.delivery_dropoff_before_pickup,
        "Dropoff address " ++ toString (2 : Int) ++
          " before pickup address " ++ toString (1 : Int)⟩ :=
  parcelCanBeDelivered_first_occurrence_only ⟨1, 2⟩ [2, 1, 2]
    (by decide) (by decide) ⟨2, by decide, by decide⟩

/-- A successful check yields exactly the pickup/dropoff pair of the
parcel, whatever the path was. -/
theorem parcelCanBeDelivered_ok_val (p : Parcel) (tp : List Int) (v : Step × Step)
    (h : parcelCanBeDelivered p tp = Except.ok v) :
    v = (⟨p.pickupAddress, Action.pickup⟩, ⟨p.dropoffAddress, Action.dropoff⟩) := by
  simp only [parcelCanBeDelivered] at h
  split at h
  · simp at h
  · split at h
    · simp at h
    · split at h
      · simp at h
      · injection h with h'
        exact h'.symm

/-- A failed check never carries the `unknown_error` code. -/
theorem parcelCanBeDelivered_error_code (p : Parcel) (tp : List Int) (e : Error)
    (h : parcelCanBeDelivered p tp = Except.error e) :
    e.error_code ≠ ErrorCode.unknown_error := by
  simp only [parcelCanBeDelivered] at h
  split at h
  · injection h with h'
    rw [← h']
    simp
  · split at h
    · injection h with h'
      rw [← h']
      simp
    · split at h
      · injection h with h'
        rw [← h']
        simp
      · simp at h

theorem flatStepsOf_cons (d : Parcel) (ds : List Parcel) (tp : List Int)
    (v : Step × Step) (hv : parcelCanBeDelivered d tp = Except.ok v) :
    flatStepsOf (d :: ds) tp = v.1 :: v.2 :: flatStepsOf ds tp := by
  simp [flatStepsOf, hv, Except.toOption]

/-- When every parcel checks out, the flattened pair list depends only
on the parcels, not on the truck path. -/
theorem flatStepsOf_eq_parcelSteps (ds : List Parcel) (tp : List Int)
    (h : parcelsAreAllDeliverable
      (ds.map (fun parcel => parcelCanBeDelivered parcel tp)) = true) :
    flatStepsOf ds tp = parcelSteps ds := by
  induction ds with
  | nil => simp [flatStepsOf, parcelSteps]
  | cons d ds ih =>
    simp only [parcelsAreAllDeliverable, List.map_cons, List.all_cons,
      Bool.and_eq_true] at h
    obtain ⟨hd, hrest⟩ := h
    obtain ⟨v, hv⟩ : ∃ v, parcelCanBeDelivered d tp = Except.ok v := by
      cases hcase : parcelCanBeDelivered d tp with
      | ok v => exact ⟨v, rfl⟩
      | error e =>
        rw [hcase] at hd
        simp [Except.isOk, Except.toBool] at hd
    have hval := parcelCanBeDelivered_ok_val d tp v hv
    have ihh := ih (by simpa [parcelsAreAllDeliverable] using hrest)
    rw [flatStepsOf_cons d ds tp v hv, hval, ihh]
    simp [parcelSteps]

/-- Shape of the success branch of `generateTruckSteps`. -/
theorem generateTruckSteps_success_eq (ds : List Parcel) (tp : List Int)
    (h : parcelsAreAllDeliverable
      (ds.map (fun parcel => parcelCanBeDelivered parcel tp)) = true) :
    generateTruckSteps ds tp =
      Output.success (rightOrderStep (fullStepsOf (sortSteps (flatStepsOf ds tp))) tp) := by
  simp only [generateTruckSteps, h, Bool.not_true]
  rfl

/-- Gap filling inserts only pass-through steps: the count of steps
whose action is a parcel event is unchanged. -/
theorem countP_gapFill_event (l : List Step) :
    (gapFill l).countP (fun s => !decide (s.action = Action.none)) =
      l.countP (fun s => !decide (s.action = Action.none)) := by
  induction l with
  | nil => simp [gapFill]
  | cons s l ih =>
    cases l with
    | nil => simp [gapFill]
    | cons t rest =>
      by_cases h : t.address = s.address + 2
      · simp only [gapFill, if_pos h]
        simp [List.countP_cons, ih]
      · simp only [gapFill, if_neg h]
        simp [List.countP_cons, ih]

/-- Every parcel contributes exactly two parcel-event steps. -/
theorem countP_parcelSteps_event (ds : List Parcel) :
    (parcelSteps ds).countP (fun s => !decide (s.action = Action.none)) =
      2 * ds.length := by
  induction ds with
  | nil => simp [parcelSteps]
  | cons d ds ih =>
    simp [parcelSteps, List.countP_cons] at *
    omega

theorem length_countP_split (l : List Step) :
    l.length = l.countP (fun s => decide (s.action = Action.none)) +
      l.countP (fun s => !decide (s.action = Action.none)) := by
  induction l with
  | nil => simp
  | cons x l ih =>
    by_cases hx : x.action = Action.none <;>
      simp [List.countP_cons, hx, ih] <;> omega

theorem length_rightOrderStep (full : List Step) (tp : List Int) :
    (rightOrderStep full tp).length = full.length := by
  simp [rightOrderStep]

theorem rightOrderStep_getElem? (full : List Step) (tp : List Int) (i : Nat)
    (h : i < full.length) :
    (rightOrderStep full tp)[i]? = some (match tp[i]? with
      | some trackId => full.find? (fun step => decide (step.address = trackId))
      | Option.none => Option.none) := by
  simp [rightOrderStep, List.getElem?_range h]

/-- C2: when the per-parcel results hold a failure, `generateTruckSteps`
returns exactly the error of the first failing parcel in parcel input
order (the scan order of `find?` over the mapped results), ignoring all
successes and later failures; the outcome carries that single error and
nothing else. -/
theorem generateTruckSteps_first_error (ds : List Parcel) (tp : List Int)
    (hne : ds ≠ []) (e : Error)
    (hfind : (ds.map (fun parcel => parcelCanBeDelivered parcel tp)).find?
      (fun t => !t.isOk) = some (Except.error e)) :
    generateTruckSteps ds tp = Output.error e := by
  have hmem := List.mem_of_find?_eq_some hfind
  have hall : parcelsAreAllDeliverable
      (ds.map (fun parcel => parcelCanBeDelivered parcel tp)) = false := by
    simp only [parcelsAreAllDeliverable, List.all_eq_false]
    exact ⟨Except.error e, hmem, by simp [Except.isOk, Except.toBool]⟩
  simp only [generateTruckSteps, hall, Bool.not_false]
  rw [hfind]
  simp

/-- Closed instance of `generateTruckSteps_first_error`: the first
parcel fails with dropoff-before-pickup, the second with a missing
pickup address; only the first error is reported. -/
theorem generateTruckSteps_first_error_witness :
    generateTruckSteps [⟨1, 2⟩, ⟨3, 4⟩] [2, 1] =
      Output.error ⟨ErrorCode.delivery_dropoff_before_pickup,
        "Dropoff address 2 before pickup address 1"⟩ :=
  generateTruckSteps_first_error [⟨1, 2⟩, ⟨3, 4⟩] [2, 1] (by decide)
    ⟨ErrorCode.delivery_dropoff_before_pickup,
      "Dropoff address 2 before pickup address 1"⟩ (by decide)

/-- C6: the worked example of the exercise.  Parcels `(1,3)` and `(2,5)`
on the path `[1,2,3,4,5]` produce pickup at 1 and 2, dropoff at 3, a
pass-through step at 4 and a dropoff at 5, in path order. -/
theorem generateTruckSteps_example1 :
    generateTruckSteps [⟨1, 3⟩, ⟨2, 5⟩] [1, 2, 3, 4, 5] =
      Output.success [some ⟨1, Action.pickup⟩, some ⟨2, Action.pickup⟩,
        some ⟨3, Action.dropoff⟩, some ⟨4, Action.none⟩,
        some ⟨5, Action.dropoff⟩] := by
  decide

/-- C8: `generateTruckSteps` never produces the defensive
`unknown_error` outcome: whenever the all-deliverable check fails, the
scan for the first failure finds one, and the error it carries comes out
of `parcelCanBeDelivered`, which never emits `unknown_error`. -/
theorem generateTruckSteps_no_unknown (ds : List Parcel) (tp : List Int)
    (hne : ds ≠ []) :
    generateTruckSteps ds tp ≠
      Output.error ⟨ErrorCode.unknown_error, "Unknown error"⟩ := by
  cases hall : parcelsAreAllDeliverable
      (ds.map (fun parcel => parcelCanBeDelivered parcel tp)) with
  | true =>
    rw [generateTruckSteps_success_eq ds tp hall]
    simp
  | false =>
    have hex : ∃ x ∈ ds.map (fun parcel => parcelCanBeDelivered parcel tp),
        ¬ x.isOk = true := by
      simpa [parcelsAreAllDeliverable, List.all_eq_false] using hall
    obtain ⟨x, hxmem, hxnotok⟩ := hex
    have hsome : ((ds.map (fun parcel => parcelCanBeDelivered parcel tp)).find?
        (fun t => !t.isOk)).isSome := by
      rw [List.find?_isSome]
      exact ⟨x, hxmem, by simpa using hxnotok⟩
    obtain ⟨y, hy⟩ := Option.isSome_iff_exists.mp hsome
    have hyp := List.find?_some hy
    cases y with
    | ok v => simp [Except.isOk, Except.toBool] at hyp
    | error e =>
      have hymem := List.mem_of_find?_eq_some hy
      obtain ⟨p, _, hpe⟩ := List.mem_map.mp hymem
      have hcode : e.error_code ≠ ErrorCode.unknown_error :=
        parcelCanBeDelivered_error_code p tp e hpe
      simp only [generateTruckSteps, hall, Bool.not_false]
      rw [hy]
      intro hc
      injection hc with h1
      exact hcode (by rw [h1])

/-- Closed instance of `generateTruckSteps_no_unknown` on a concrete
infeasible input. -/
theorem generateTruckSteps_no_unknown_witness :
    generateTruckSteps [⟨1, 2⟩] [] ≠
      Output.error ⟨ErrorCode.unknown_error, "Unknown error"⟩ :=
  generateTruckSteps_no_unknown [⟨1, 2⟩] [] (by decide)

/-- C3: on an input where every parcel is feasible, the outcome is built
by flattening the step pairs, stably sorting ascending by address
(witnessed by the permutation and sortedness conjuncts), gap-filling the
sorted list, and reordering; and `gapFill` inserts the synthetic
`Action.none` step between adjacent sorted steps exactly when their
addresses differ by exactly 2, leaving every other pair (in particular
larger gaps) untouched. -/
theorem generateTruckSteps_pipeline (ds : List Parcel) (tp : List Int)
    (h : parcelsAreAllDeliverable
      (ds.map (fun parcel => parcelCanBeDelivered parcel tp)) = true) :
    (sortSteps (flatStepsOf ds tp)).Perm (flatStepsOf ds tp) ∧
    List.Pairwise (fun a b : Step => a.address ≤ b.address)
      (sortSteps (flatStepsOf ds tp)) ∧
    generateTruckSteps ds tp =
      Output.success (rightOrderStep (gapFill (sortSteps (flatStepsOf ds tp))) tp) ∧
    (∀ s t : Step, ∀ rest : List Step, t.address = s.address + 2 →
      gapFill (s :: t :: rest) =
        s :: ⟨s.address + 1, Action.none⟩ :: gapFill (t :: rest)) ∧
    (∀ s t : Step, ∀ rest : List Step, t.address ≠ s.address + 2 →
      gapFill (s :: t :: rest) = s :: gapFill (t :: rest)) := by
  refine ⟨List.perm_insertionSort stepLE (flatStepsOf ds tp), ?_, ?_, ?_, ?_⟩
  · exact List.sorted_insertionSort stepLE (flatStepsOf ds tp)
  · rw [generateTruckSteps_success_eq ds tp h, fullStepsOf_eq_gapFill]
  · intro s t rest hst
    simp [gapFill, hst]
  · intro s t rest hst
    simp [gapFill, hst]

/-- Closed instance of `generateTruckSteps_pipeline` at the worked
example. -/
theorem generateTruckSteps_pipeline_witness :
    generateTruckSteps [⟨1, 3⟩, ⟨2, 5⟩] [1, 2, 3, 4, 5] =
      Output.success (rightOrderStep (gapFill (sortSteps
        (flatStepsOf [⟨1, 3⟩, ⟨2, 5⟩] [1, 2, 3, 4, 5]))) [1, 2, 3, 4, 5]) :=
  (generateTruckSteps_pipeline [⟨1, 3⟩, ⟨2, 5⟩] [1, 2, 3, 4, 5] (by decide)).2.2.1

/-- C9: on an all-feasible input the success outcome has exactly one
entry per gap-filled step — `2 × (number of parcels)` plus the number of
inserted pass-through steps, a quantity that does not mention the truck
path — and the entry at index `i` is either a step whose address is
`truckPath[i]`, or absent when no gap-filled step carries the address
`truckPath[i]` (in particular whenever `i` is past the end of the
path). -/
theorem generateTruckSteps_reorder_invariant (ds : List Parcel) (tp : List Int)
    (h : parcelsAreAllDeliverable
      (ds.map (fun parcel => parcelCanBeDelivered parcel tp)) = true) :
    ∃ out : List (Option Step),
      generateTruckSteps ds tp = Output.success out ∧
      flatStepsOf ds tp = parcelSteps ds ∧
      out.length = 2 * ds.length +
        (fullStepsOf (sortSteps (parcelSteps ds))).countP
          (fun s => decide (s.action = Action.none)) ∧
      (∀ i : Nat, ∀ s : Step, out[i]? = some (some s) → tp[i]? = some s.address) ∧
      (∀ i : Nat, out[i]? = some Option.none → ∀ a : Int, tp[i]? = some a →
        ∀ s ∈ fullStepsOf (sortSteps (parcelSteps ds)), s.address ≠ a) := by
  have hflat := flatStepsOf_eq_parcelSteps ds tp h
  refine ⟨rightOrderStep (fullStepsOf (sortSteps (parcelSteps ds))) tp,
    ?_, hflat, ?_, ?_, ?_⟩
  · rw [generateTruckSteps_success_eq ds tp h, hflat]
  · rw [length_rightOrderStep]
    have hsplit := length_countP_split (fullStepsOf (sortSteps (parcelSteps ds)))
    have hev : (fullStepsOf (sortSteps (parcelSteps ds))).countP
        (fun s => !decide (s.action = Action.none)) = 2 * ds.length := by
      rw [fullStepsOf_eq_gapFill, countP_gapFill_event]
      simp only [sortSteps]
      rw [(List.perm_insertionSort stepLE (parcelSteps ds)).countP_eq]
      exact countP_parcelSteps_event ds
    omega
  · intro i s hi
    have hlt : i < (fullStepsOf (sortSteps (parcelSteps ds))).length := by
      by_contra hge
      rw [List.getElem?_eq_none
        (by rw [length_rightOrderStep]; omega)] at hi
      exact Option.noConfusion hi
    rw [rightOrderStep_getElem? _ tp i hlt] at hi
    have hi' := Option.some.inj hi
    cases htp : tp[i]? with
    | none => rw [htp] at hi'; exact Option.noConfusion hi'
    | some a =>
      rw [htp] at hi'
      have hpred := List.find?_some hi'
      have : s.address = a := of_decide_eq_true hpred
      rw [this]
  · intro i hi a htp s hs
    have hlt : i < (fullStepsOf (sortSteps (parcelSteps ds))).length := by
      by_contra hge
      rw [List.getElem?_eq_none
        (by rw [length_rightOrderStep]; omega)] at hi
      exact Option.noConfusion hi
    rw [rightOrderStep_getElem? _ tp i hlt] at hi
    have hi' := Option.some.inj hi
    rw [htp] at hi'
    have hnone := List.find?_eq_none.mp hi' s hs
    intro hc
    exact hnone (by simp [hc])

/-- Closed instance of `generateTruckSteps_reorder_invariant` at the
worked example. -/
theorem generateTruckSteps_reorder_invariant_witness :
    ∃ out : List (Option Step),
      generateTruckSteps [⟨1, 3⟩, ⟨2, 5⟩] [1, 2, 3, 4, 5] = Output.success out ∧
      flatStepsOf [⟨1, 3⟩, ⟨2, 5⟩] [1, 2, 3, 4, 5] = parcelSteps [⟨1, 3⟩, ⟨2, 5⟩] ∧
      out.length = 2 * (2 : Nat) +
        (fullStepsOf (sortSteps (parcelSteps [⟨1, 3⟩, ⟨2, 5⟩]))).countP
          (fun s => decide (s.action = Action.none)) ∧
      (∀ i : Nat, ∀ s : Step, out[i]? = some (some s) →
        [1, 2, 3, 4, 5][i]? = some s.address) ∧
      (∀ i : Nat, out[i]? = some Option.none → ∀ a : Int,
        [1, 2, 3, 4, 5][i]? = some a →
        ∀ s ∈ fullStepsOf (sortSteps (parcelSteps [⟨1, 3⟩, ⟨2, 5⟩])),
          s.address ≠ a) :=
  generateTruckSteps_reorder_invariant [⟨1, 3⟩, ⟨2, 5⟩] [1, 2, 3, 4, 5] (by decide)

/-- JSON values as produced by `JSON.parse`, with numbers restricted to
the integral ones the algorithm manipulates. -/
inductive Js where
  | null
  | bool (b : Bool)
  | num (n : Int)
  | str (s : String)
  | arr (elems : List Js)
  | obj (fields : List (String × Js))

/-- The runtime shape `ParcelFromTuple` actually builds when fed an
arbitrary decoded JSON element: either field may be `undefined`
(`Option.none`) or hold any JSON value. -/
structure JsParcel where
  pickupAddress : Option Js
  dropoffAddress : Option Js

/-- JavaScript property read `v[i]` (for `i = 0, 1`) on an arbitrary
parsed value: array indexing, string indexing (yielding a one-character
string), object field access under the stringified index, `undefined`
for numbers and booleans — and a thrown `TypeError` on `null`. -/
def jsIndex (v : Js) (i : Nat) : Except Unit (Option Js) :=
  match v with
  | Js.null => Except.error ()
  | Js.arr l => Except.ok l[i]?
  | Js.str s => Except.ok ((s.data[i]?).map (fun c => Js.str (String.mk [c])))
  | Js.obj fields =>
    Except.ok ((fields.find? (fun f => f.1 == toString i)).map (fun f => f.2))
  | _ => Except.ok Option.none

/-- Embeds `ParcelFromTuple`:
`{ pickupAddress: tuple[0], dropoffAddress: tuple[1] }`, as it executes
on a decoded JSON element (both property reads can throw on `null`). -/
def ParcelFromTuple (tuple : Js) : Except Unit JsParcel := do
  let p ← jsIndex tuple 0
  let d ← jsIndex tuple 1
  Except.ok ⟨p, d⟩

/-- JavaScript `typeof v === 'number'` on a possibly-undefined value. -/
def isNumber : Option Js → Bool
  | some (Js.num _) => true
  | _ => false

/-- Embeds the type guard `isParcel`, at the shape of its call site:
both fields defined and both numbers. -/
def isParcel (parcel : JsParcel) : Bool :=
  parcel.pickupAddress.isSome && parcel.dropoffAddress.isSome &&
    isNumber parcel.pickupAddress && isNumber parcel.dropoffAddress

/-- Embeds the type guard `isDeliveries` at its call site in `main`,
where the argument is always an array (so its `Array.isArray` conjunct
is `true`): non-empty, and every element a well-formed parcel. -/
def isDeliveries (deliveries : List JsParcel) : Bool :=
  !deliveries.isEmpty && deliveries.all isParcel

/-- Embeds the type guard `isTruckPath`: an array of numbers. -/
def isTruckPath (truckPath : Js) : Bool :=
  match truckPath with
  | Js.arr l =>
    l.all (fun address => match address with | Js.num _ => true | _ => false)
  | _ => false

/-- Reads the numeric fields off a `JsParcel`; only reached under
`isDeliveries`, whose guard makes the defaults unreachable. -/
def toParcel (p : JsParcel) : Parcel :=
  ⟨match p.pickupAddress with | some (Js.num n) => n | _ => 0,
    match p.dropoffAddress with | some (Js.num n) => n | _ => 0⟩

/-- Reads the integer list off a `Js` value; only reached under
`isTruckPath`, whose guard makes the defaults unreachable. -/
def toTruckPath (j : Js) : List Int :=
  match j with
  | Js.arr l => l.map (fun a => match a with | Js.num n => n | _ => 0)
  | _ => []

/-- Embeds `main`.  An argument is `Option.none` when the corresponding
`process.argv` entry is missing or is the empty string (both falsy in
the guard), and otherwise carries the result of `JSON.parse` on it,
`Except.error ()` standing for a parse `SyntaxError`.  In the result,
`Except.ok n` is the returned exit code `n` and `Except.error ()` is an
uncaught exception escaping `main` (so no exit code is returned at
all).  The generated steps are computed and printed but do not affect
the exit code. -/
def main (deliveriesFromArgv truckPathFromArgv : Option (Except Unit Js)) :
    Except Unit Nat :=
  match deliveriesFromArgv, truckPathFromArgv with
  | Option.none, _ => Except.ok 1
  | _, Option.none => Except.ok 1
  | some dArg, some tArg =>
    match dArg with
    | Except.error e => Except.error e
    | Except.ok rawDeliveries =>
      match rawDeliveries with
      | Js.arr rawArr =>
        if rawArr.length = 0 then Except.ok 2
        else
          match rawArr.mapM ParcelFromTuple with
          | Except.error e => Except.error e
          | Except.ok deliveries =>
            match tArg with
            | Except.error e => Except.error e
            | Except.ok truckPath =>
              if !isDeliveries deliveries then Except.ok 2
              else if !isTruckPath truckPath then Except.ok 4
              else
                let _ := generateTruckSteps (deliveries.map toParcel)
                  (toTruckPath truckPath)
                Except.ok 0
      | _ => Except.ok 2

/-- The exit-code table as the amended claim words it: 1 for a missing
argument; an uncaught exception when either argument is malformed JSON
(or a tuple element is `null`); 2 when argument 1 decodes to a
non-array or empty array or fails Parcel validation after mapping; 4
when argument 2 fails TruckPath validation; 0 otherwise. -/
def specExitCode (d t : Option (Except Unit Js)) : Except Unit Nat :=
  match d, t with
  | Option.none, _ => Except.ok 1
  | _, Option.none => Except.ok 1
  | some (Except.error _), some _ => Except.error ()
  | some (Except.ok j), some tr =>
    match j with
    | Js.arr rawArr =>
      if rawArr.length = 0 then Except.ok 2
      else
        match rawArr.mapM ParcelFromTuple, tr with
        | Except.error _, _ => Except.error ()
        | Except.ok _, Except.error _ => Except.error ()
        | Except.ok ps, Except.ok tj =>
          if !isDeliveries ps then Except.ok 2
          else if !isTruckPath tj then Except.ok 4
          else Except.ok 0
    | _ => Except.ok 2

/-- C7 counterexample: malformed JSON makes `main` throw instead of
returning an exit code.  A malformed first argument does not produce
exit code 2, and a malformed second argument does not produce exit
code 4. -/
theorem main_malformed_json_counterexample :
    main (some (Except.error ())) (some (Except.ok (Js.arr [Js.num 1]))) ≠
        Except.ok 2 ∧
      main (some (Except.ok (Js.arr [Js.arr [Js.num 1, Js.num 2]])))
        (some (Except.error ())) ≠ Except.ok 4 := by
  constructor
  · decide
  · decide

/-- C7 (amended): `main` realises exactly the exit-code table
`specExitCode` — 1 for missing arguments, 2 for a non-array/empty or
invalid deliveries argument, 4 for an invalid truck-path argument, 0 on
valid input, and an uncaught exception (no exit code) on malformed
JSON in either argument. -/
theorem main_eq_specExitCode :
    ∀ d t : Option (Except Unit Js), main d t = specExitCode d t := by
  intro d t
  cases d with
  | none => cases t <;> rfl
  | some dArg =>
    cases t with
    | none => cases dArg <;> rfl
    | some tArg =>
      cases dArg with
      | error e => rfl
      | ok j =>
        cases j with
        | null => rfl
        | bool b => rfl
        | num n => rfl
        | str s => rfl
        | obj f => rfl
        | arr rawArr =>
          simp only [main, specExitCode]
          by_cases hlen : rawArr.length = 0
          · rw [if_pos hlen, if_pos hlen]
          · rw [if_neg hlen, if_neg hlen]
            cases hm : rawArr.mapM ParcelFromTuple with
            | error e => cases tArg <;> rfl
            | ok ps => cases tArg <;> rfl

end Delivery
